import Mathlib

/-!
Shallow embedding of the node-ms-passport native layer
(cpp_src/NodeMsPassport.hpp and cpp_src/msPassport.cpp).

Byte strings (std::string contents) and byte vectors are embedded as
List Nat with every element a byte value below 256; wide strings are
embedded as List Nat of wchar_t values.  Statuses are Int (C int).
Fallible C++ code (throwing functions) is embedded as Except String.
-/

namespace NodeMsPassport

/-! ### Codec: msPassport.cpp, string_to_binary / binary_to_string -/

/-- The C library predicate isxdigit restricted to ASCII byte values:
digits 0-9, letters A-F and a-f. -/
def isxdigit (c : Nat) : Bool :=
  (48 ≤ c && c ≤ 57) || (65 ≤ c && c ≤ 70) || (97 ≤ c && c ≤ 102)

/-- The C library function toupper on ASCII byte values. -/
def toupper (c : Nat) : Nat := if 97 ≤ c && c ≤ 122 then c - 32 else c

/-- The C library function tolower on ASCII byte values. -/
def tolower (c : Nat) : Nat := if 65 ≤ c && c ≤ 90 then c + 32 else c

/-- The static lookup table of string_to_binary:
unsigned int nibbles[] = 0,1,2,3,4,5,6,7,8,9,0,0,0,0,0,0,0,10,11,12,13,14,15. -/
def nibbles : List Nat := [0, 1, 2, 3, 4, 5, 6, 7, 8, 9, 0, 0, 0, 0, 0, 0, 0, 10, 11, 12, 13, 14, 15]

/-- The table access nibbles[toupper(c) - 48] performed by string_to_binary. -/
def nibbleOf (c : Nat) : Nat := nibbles.getD (toupper c - 48) 0

/-- The message of the std::exception thrown by string_to_binary on an invalid
character c: it names the character between single quotes but not its position. -/
def errMsg (c : Nat) : String :=
  "Invalid character: " ++ String.singleton (Char.ofNat 39) ++ String.singleton (Char.ofNat c)
    ++ String.singleton (Char.ofNat 39) ++ " is not a valid hex digit"

/-- string_to_binary from msPassport.cpp.  The loop advances the iterator two
characters at a time.  The first character of each pair must be a hex digit or
a std::exception is thrown; the second character contributes the low nibble
only when it exists and is itself a hex digit, otherwise it is silently
skipped.  The byte pushed is an unsigned char, hence the mod 256 (the values
never exceed 255 in fact). -/
def string_to_binary : List Nat → Except String (List Nat)
  | [] => .ok []
  | [c] =>
    if isxdigit c then .ok [nibbleOf c * 16 % 256]
    else .error (errMsg c)
  | c :: c2 :: rest =>
    if isxdigit c then
      let v := nibbleOf c * 16 % 256
      let v2 := if isxdigit c2 then (v + nibbleOf c2) % 256 else v
      match string_to_binary rest with
      | .ok tl => .ok (v2 :: tl)
      | .error e => .error e
    else .error (errMsg c)

/-- The static symbol table of binary_to_string: "0123456789ABCDEF", as ASCII
byte values. -/
def syms : List Nat := [48, 49, 50, 51, 52, 53, 54, 55, 56, 57, 65, 66, 67, 68, 69, 70]

/-- binary_to_string from msPassport.cpp: every byte becomes the two characters
syms[(b >> 4) & 0xf] and syms[b & 0xf].  For byte values below 256 the shift
and mask equal b / 16 % 16 and b % 16 (the intermediate char / unsigned
conversions of the source preserve bits 0 to 7). -/
def binary_to_string (source : List Nat) : List Nat :=
  source.flatMap (fun it => [syms.getD (it / 16 % 16) 0, syms.getD (it % 16) 0])

/-! ### zallocator: NodeMsPassport.hpp, util::zallocator -/

/-- std::fill_n((volatile char *) p, count, 0): the first count bytes of the
storage are overwritten with zero, the rest (none, in the deallocate call) is
kept. -/
def fill_n_zero (storage : List Nat) (count : Nat) : List Nat :=
  List.replicate (min count storage.length) 0 ++ storage.drop count

/-- util::zallocator::deallocate(p, n): fills n * sizeof(T) bytes of the
backing storage with zero, then returns the memory to the global allocator.
The storage argument is the byte contents of the allocation p points to. -/
def deallocate (sizeofT : Nat) (storage : List Nat) (n : Nat) : List Nat :=
  fill_n_zero storage (n * sizeofT)

/-! ### OperationResult protocol: NodeMsPassport.hpp, passport namespace.

The unmanaged (C# bridge) functions are declared but not defined in cpp_src;
their outcome (status plus a native byte buffer of explicit length) is a
parameter of each embedded wrapper. -/

/-- passport::OperationResult: an immutable payload plus status pair. -/
structure OperationResult where
  data : List Nat
  status : Int

/-- OperationResult::ok(): status == 0. -/
def OperationResult.ok (r : OperationResult) : Bool := decide (r.status = 0)

/-- passport::createPassportKey: copies exactly size native bytes into the
secure vector when the native status is zero, otherwise leaves it empty. -/
def createPassportKey (_accountId : List Nat) (status : Int) (nativeData : List Nat) :
    OperationResult :=
  { data := if status = 0 then nativeData else [], status := status }

/-- passport::passportSign: same wrapper shape as createPassportKey. -/
def passportSign (_accountId _challenge : List Nat) (status : Int) (nativeData : List Nat) :
    OperationResult :=
  { data := if status = 0 then nativeData else [], status := status }

/-- passport::getPublicKey: same wrapper shape as createPassportKey. -/
def getPublicKey (_accountId : List Nat) (status : Int) (nativeData : List Nat) :
    OperationResult :=
  { data := if status = 0 then nativeData else [], status := status }

/-- passport::getPublicKeyHash: same wrapper shape as createPassportKey. -/
def getPublicKeyHash (_accountId : List Nat) (status : Int) (nativeData : List Nat) :
    OperationResult :=
  { data := if status = 0 then nativeData else [], status := status }

/-- Modelled from the spec: the unmanaged biometric engine (declared in
NodeMsPassport.hpp, implemented outside cpp_src) returns a payload with an
explicit length; per the external-interface section a successful operation
carries a non-empty payload (status, keyBytes). -/
def NativeEngineContract (status : Int) (payload : List Nat) : Prop :=
  status = 0 → payload ≠ []

/-- The caller-facing object built by convertToObject in msPassport.cpp:
status, ok and data members, with data null (none) unless status is zero. -/
structure NapiObject where
  status : Int
  ok : Bool
  data : Option (List Nat)

/-- convertToObject from msPassport.cpp. -/
def convertToObject (res : OperationResult) : NapiObject :=
  { status := res.status
    ok := res.ok
    data := if res.status = 0 then some (binary_to_string res.data) else none }

/-! ### secure_wstring conversions: NodeMsPassport.hpp -/

/-- sizeof(wchar_t) on the target (MSVC / Windows) platform. -/
def sizeof_wchar : Nat := 2

/-- Modelled from the spec: memcpy_s (CRT, external to the repository)
succeeds exactly when the requested byte count fits into the destination;
on failure it zero-fills the destination and returns a nonzero error. -/
def memcpy_s_ok (destSize count : Nat) : Bool := decide (count ≤ destSize)

/-- Grouping of raw bytes into wchar_t values (little endian, two bytes per
character), as laid down in memory by memcpy. -/
def bytesToWchars : List Nat → List Nat
  | b0 :: b1 :: rest => (b0 + 256 * b1) :: bytesToWchars rest
  | _ => []

/-- secure_wstring::secure_wstring(const secure_vector of unsigned char):
allocates data.size() / sizeof(wchar_t) characters, then copies data.size()
bytes with memcpy_s; when the copy fails the string is resized to zero.  The
second component records whether a diagnostic was emitted: this constructor
contains no perror call, so it is always false. -/
def secure_wstring_fromBytes (data : List Nat) : List Nat × Bool :=
  let sz := data.length / sizeof_wchar
  if memcpy_s_ok (sz * sizeof_wchar) data.length then (bytesToWchars data, false)
  else ([], false)

/-- The two bytes of one wchar_t value, as laid down in memory. -/
def wcharToBytes (c : Nat) : List Nat := [c % 256, c / 256 % 256]

/-- secure_wstring::getBytes(): copies size() * sizeof(wchar_t) bytes into a
fresh secure vector of exactly that size; the memcpy_s destination size equals
the count, so the copy always succeeds. -/
def secure_wstring_getBytes (ws : List Nat) : List Nat :=
  let count := ws.length * sizeof_wchar
  if memcpy_s_ok count count then ws.flatMap wcharToBytes else []

/-- Modelled from the spec: mbstowcs_s (CRT, external to the repository)
reports, together with a nonzero error code, zero converted characters and an
emptied destination: a failed conversion never leaves partial output. -/
def MbstowcsContract (err outSize : Nat) : Prop := err ≠ 0 → outSize = 0

/-- secure_wstring::secure_wstring(const std::string &): allocates
str.size() + 1 space characters, lets mbstowcs_s convert into the buffer
(err is its error code, outSize its converted-character count, buf the buffer
contents after the call), prints a diagnostic via perror when err is nonzero,
and finally resizes the string to outSize.  The second component records
whether the perror diagnostic was emitted. -/
def secure_wstring_fromString (_str : List Nat) (err outSize : Nat) (buf : List Nat) :
    List Nat × Bool :=
  (buf.take outSize, decide (err ≠ 0))

/-! ### passwords namespace: NodeMsPassport.hpp.

The util layer (CredProtectW / CredUnprotectW wrappers) is declared but not
defined in cpp_src; its outcome is a parameter: none models a util call that
returned false, some out models success with output buffer out. -/

namespace passwords

/-- passwords::encrypt(secure_wstring &data): calls util::encrypt(data, out)
(data passed by const reference, so never written by the callee); only when it
returns true is data overwritten with the output.  Returns the success flag
and the final contents of data. -/
def encrypt (data : List Nat) (utilOut : Option (List Nat)) : Bool × List Nat :=
  match utilOut with
  | none => (false, data)
  | some out => (true, out)

/-- passwords::decrypt(secure_wstring &data): same shape as encrypt. -/
def decrypt (data : List Nat) (utilOut : Option (List Nat)) : Bool × List Nat :=
  match utilOut with
  | none => (false, data)
  | some out => (true, out)

/-- passwords::isEncrypted(const secure_wstring &data): util::isEncrypted
reports a result and an ok flag; when ok is false an encryptionException with
this exact message is thrown, otherwise the result is returned. -/
def isEncrypted (_data : List Nat) (utilRes utilOk : Bool) : Except String Bool :=
  if utilOk then .ok utilRes else .error "Could not check if data is encrypted"

end passwords

/-! ### Async workers: msPassport.cpp, workers namespace.

Execute runs on the worker thread inside a try block whose catch-all clauses
convert any exception into SetError; the embedded Execute therefore returns
Except String (status, optional encoded data), where the error case is
exactly "SetError was called with this message".  The native call outcome is
a parameter as above; an exception escaping the native layer is the error
case of that parameter. -/

/-- One signal on a worker's completion sink: the promise is either resolved
with the status object built by OnOK or rejected with the error by OnError. -/
inductive Completion where
  | resolved : Int → Bool → Option (List Nat) → Completion
  | rejected : String → Completion

/-- workers::createPassportKeyWorker::Execute: runs createPassportKey, encodes
the payload when ok; any exception is caught and turned into SetError. -/
def createPassportKeyWorkerExecute (account : List Nat)
    (native : Except String (Int × List Nat)) : Except String (Int × Option (List Nat)) :=
  match native with
  | .error e => .error e
  | .ok (st, nd) =>
    let res := createPassportKey account st nd
    .ok (res.status, if res.ok then some (binary_to_string res.data) else none)

/-- workers::passportSignWorker::Execute: first decodes the challenge with
string_to_binary (whose exception is caught like any other), then runs
passportSign and encodes the payload when ok. -/
def passportSignWorkerExecute (account challenge : List Nat)
    (native : Except String (Int × List Nat)) : Except String (Int × Option (List Nat)) :=
  match string_to_binary challenge with
  | .error e => .error e
  | .ok chv =>
    match native with
    | .error e => .error e
    | .ok (st, nd) =>
      let res := passportSign account chv st nd
      .ok (res.status, if res.ok then some (binary_to_string res.data) else none)

/-- Modelled from the spec: the async framework (Napi::AsyncWorker, external)
invokes OnError exactly when Execute set an error and OnOK otherwise, exactly
once per queued worker; OnOK resolves the deferred promise with the status
object (data null unless status is zero, as in the source OnOK bodies) and
OnError rejects it with the error. -/
def workerOnDone (ex : Except String (Int × Option (List Nat))) : Completion :=
  match ex with
  | .error e => .rejected e
  | .ok (st, d) => .resolved st (decide (st = 0)) (if st = 0 then d else none)

/-- The complete lifecycle of one createPassportKeyWorker request. -/
def createPassportKeyWorkerRun (account : List Nat)
    (native : Except String (Int × List Nat)) : Completion :=
  workerOnDone (createPassportKeyWorkerExecute account native)

/-- The complete lifecycle of one passportSignWorker request. -/
def passportSignWorkerRun (account challenge : List Nat)
    (native : Except String (Int × List Nat)) : Completion :=
  workerOnDone (passportSignWorkerExecute account challenge native)

/-! ### Shared helper lemmas -/

/-- Every entry of the syms table is an upper-case hex digit whose nibble
value is its index. -/
theorem syms_key : ∀ d, d < 16 →
    (isxdigit (syms.getD d 0) = true ∧ toupper (syms.getD d 0) = syms.getD d 0 ∧
     nibbleOf (syms.getD d 0) = d) := by decide

/-- Hex digits are ASCII values below 103. -/
theorem isxdigit_bound {c : Nat} (h : isxdigit c = true) : c < 103 := by
  simp [isxdigit] at h
  omega

/-- Case mapping preserves hex-digithood and the decoded nibble value. -/
theorem hexcase : ∀ c, c < 103 → isxdigit c = true →
    (isxdigit (toupper c) = true ∧ nibbleOf (toupper c) = nibbleOf c ∧
     isxdigit (tolower c) = true ∧ nibbleOf (tolower c) = nibbleOf c) := by decide

/-- Every character produced by binary_to_string is a hex digit fixed by
toupper, i.e. the encoding is case-canonical upper case. -/
theorem encode_upper_hex (b : List Nat) :
    ∀ c ∈ binary_to_string b, isxdigit c = true ∧ toupper c = c := by
  intro c hc
  simp only [binary_to_string, List.mem_flatMap, List.mem_cons,
    List.not_mem_nil, or_false] at hc
  obtain ⟨v, -, hcc⟩ := hc
  have hd : v / 16 % 16 < 16 := Nat.mod_lt _ (by omega)
  have hm : v % 16 < 16 := Nat.mod_lt _ (by omega)
  rcases hcc with h | h <;> subst h
  · exact ⟨(syms_key _ hd).1, (syms_key _ hd).2.1⟩
  · exact ⟨(syms_key _ hm).1, (syms_key _ hm).2.1⟩

/-- Decoding inverts encoding on byte sequences. -/
theorem decode_encode (b : List Nat) (hb : ∀ x ∈ b, x < 256) :
    string_to_binary (binary_to_string b) = .ok b := by
  induction b with
  | nil => rfl
  | cons v rest ih =>
    have hv : v < 256 := hb v (by simp)
    have hd : v / 16 % 16 < 16 := Nat.mod_lt _ (by omega)
    have hm : v % 16 < 16 := Nat.mod_lt _ (by omega)
    obtain ⟨h1, -, h2⟩ := syms_key _ hd
    obtain ⟨h3, -, h4⟩ := syms_key _ hm
    have ih2 := ih (fun x hx => hb x (by simp [hx]))
    have hsplit : binary_to_string (v :: rest)
        = syms.getD (v / 16 % 16) 0 :: syms.getD (v % 16) 0 :: binary_to_string rest := by
      simp [binary_to_string]
    have hval : (nibbleOf (syms.getD (v / 16 % 16) 0) * 16 % 256
        + nibbleOf (syms.getD (v % 16) 0)) % 256 = v := by
      rw [h2, h4]
      omega
    rw [hsplit]
    simp only [string_to_binary, h1, h3, if_true, ih2, hval]

/-- string_to_binary is unchanged by any character map that preserves
hex-digithood and nibble values, on all-hex inputs. -/
theorem stb_map_congr (f : Nat → Nat)
    (hf : ∀ c, isxdigit c = true → isxdigit (f c) = true ∧ nibbleOf (f c) = nibbleOf c) :
    ∀ s : List Nat, (∀ c ∈ s, isxdigit c = true) →
      string_to_binary (s.map f) = string_to_binary s
  | [], _ => rfl
  | [c], h => by
    have hc := h c (by simp)
    obtain ⟨h1, h2⟩ := hf c hc
    simp [string_to_binary, hc, h1, h2]
  | c :: c2 :: rest, h => by
    have hc := h c (by simp)
    have hc2 := h c2 (by simp)
    obtain ⟨h1, h2⟩ := hf c hc
    obtain ⟨h3, h4⟩ := hf c2 hc2
    have ih := stb_map_congr f hf rest (fun x hx => h x (by simp [hx]))
    simp [string_to_binary, hc, h1, h2, hc2, h3, h4, ih]

/-- On all-hex input the decoder succeeds and produces one byte per pair of
characters, the trailing lone character included. -/
theorem stb_allhex_len : ∀ s : List Nat, (∀ c ∈ s, isxdigit c = true) →
    ∃ l, string_to_binary s = .ok l ∧ l.length = (s.length + 1) / 2
  | [], _ => ⟨[], rfl, rfl⟩
  | [c], h => by
    have hc := h c (by simp)
    simp [string_to_binary, hc]
  | c :: c2 :: rest, h => by
    have hc : isxdigit c = true := h c (by simp)
    have hc2 : isxdigit c2 = true := h c2 (by simp)
    obtain ⟨l, hl, hlen⟩ := stb_allhex_len rest (fun x hx => h x (by simp [hx]))
    have hstep : string_to_binary (c :: c2 :: rest)
        = .ok ((nibbleOf c * 16 % 256 + nibbleOf c2) % 256 :: l) := by
      simp [string_to_binary, hc, hc2, hl]
    refine ⟨_, hstep, ?_⟩
    simp [hlen]
    omega

/-- Every nibbles table lookup yields a value of at most 15. -/
theorem nibbles_getD_le (i : Nat) : nibbles.getD i 0 ≤ 15 := by
  rcases Nat.lt_or_ge i 23 with h | h
  · interval_cases i <;> decide
  · rw [List.getD_eq_default]
    · decide
    · simpa [nibbles] using h

/-- Every nibble value is at most 15. -/
theorem nibbleOf_le (c : Nat) : nibbleOf c ≤ 15 := nibbles_getD_le _

/-- On all-hex input of odd length the decoder succeeds and the final byte is
the nibble of the final character shifted into the high position. -/
theorem stb_odd_last : ∀ s : List Nat, (∀ c ∈ s, isxdigit c = true) →
    s.length % 2 = 1 →
    ∃ l, string_to_binary s = .ok l ∧
      l.getLast? = some (nibbleOf (s.getLast?.getD 0) * 16)
  | [], _, hodd => by simp at hodd
  | [c], h, _ => by
    have hc := h c (by simp)
    have : nibbleOf c * 16 % 256 = nibbleOf c * 16 := by
      have := nibbleOf_le c
      omega
    simp [string_to_binary, hc, this]
  | c :: c2 :: rest, h, hodd => by
    have hc : isxdigit c = true := h c (by simp)
    have hc2 : isxdigit c2 = true := h c2 (by simp)
    have hrodd : rest.length % 2 = 1 := by
      simp at hodd
      omega
    obtain ⟨l, hl, hlast⟩ := stb_odd_last rest (fun x hx => h x (by simp [hx])) hrodd
    have hrne : rest ≠ [] := by
      intro hre
      rw [hre] at hrodd
      simp at hrodd
    have hlne : l ≠ [] := by
      intro hle
      rw [hle] at hlast
      simp at hlast
    have hstep : string_to_binary (c :: c2 :: rest)
        = .ok ((nibbleOf c * 16 % 256 + nibbleOf c2) % 256 :: l) := by
      simp [string_to_binary, hc, hc2, hl]
    refine ⟨_, hstep, ?_⟩
    obtain ⟨x, l2, rfl⟩ := List.exists_cons_of_ne_nil hlne
    obtain ⟨y, r2, rfl⟩ := List.exists_cons_of_ne_nil hrne
    rw [List.getLast?_cons_cons, hlast, List.getLast?_cons_cons, List.getLast?_cons_cons]

/-- The decoder succeeds whenever every character at an even (0-based) index
is a hex digit: odd-index characters are never checked for validity. -/
theorem stb_evens_ok : ∀ s : List Nat,
    (∀ i (h : i < s.length), i % 2 = 0 → isxdigit (s.get ⟨i, h⟩) = true) →
    ∃ l, string_to_binary s = .ok l
  | [], _ => ⟨[], rfl⟩
  | [c], h => by
    have hc : isxdigit c = true := h 0 (by simp) rfl
    exact ⟨[nibbleOf c * 16 % 256], by simp [string_to_binary, hc]⟩
  | c :: c2 :: rest, h => by
    have hc : isxdigit c = true := h 0 (by simp) rfl
    obtain ⟨l, hl⟩ := stb_evens_ok rest (fun i hi hp => by
      have h2 := h (i + 2) (by simpa using Nat.succ_lt_succ (Nat.succ_lt_succ hi)) (by omega)
      simpa using h2)
    exact ⟨(if isxdigit c2 then (nibbleOf c * 16 % 256 + nibbleOf c2) % 256
        else nibbleOf c * 16 % 256) :: l, by simp [string_to_binary, hc, hl]⟩

/-- When the decoder fails, the error message is errMsg applied to a
character of the input sitting at an even (0-based) index that is not a hex
digit: failures name the offending character and arise only at even indices. -/
theorem stb_error_names : ∀ (s : List Nat) (e : String),
    string_to_binary s = .error e →
    ∃ i, ∃ h : i < s.length, i % 2 = 0 ∧ isxdigit (s.get ⟨i, h⟩) = false ∧
      e = errMsg (s.get ⟨i, h⟩)
  | [], e, he => by simp [string_to_binary] at he
  | [c], e, he => by
    by_cases hc : isxdigit c
    · simp [string_to_binary, hc] at he
    · simp only [string_to_binary, hc, if_false, Bool.false_eq_true] at he
      refine ⟨0, by simp, rfl, ?_, ?_⟩
      · simpa using hc
      · simpa using he.symm
  | c :: c2 :: rest, e, he => by
    by_cases hc : isxdigit c
    · rw [show string_to_binary (c :: c2 :: rest)
          = (match string_to_binary rest with
             | .ok tl => .ok ((if isxdigit c2
                 then (nibbleOf c * 16 % 256 + nibbleOf c2) % 256
                 else nibbleOf c * 16 % 256) :: tl)
             | .error e2 => .error e2) from by simp [string_to_binary, hc]] at he
      cases hrest : string_to_binary rest with
      | ok tl => rw [hrest] at he; simp at he
      | error e2 =>
        rw [hrest] at he
        simp only [Except.error.injEq] at he
        subst he
        obtain ⟨i, hi, hp, hx, hmsg⟩ := stb_error_names rest e2 hrest
        refine ⟨i + 2, by simpa using Nat.succ_lt_succ (Nat.succ_lt_succ hi), by omega, ?_, ?_⟩
        · simpa using hx
        · simpa using hmsg
    · simp only [string_to_binary, hc, if_false, Bool.false_eq_true] at he
      refine ⟨0, by simp, rfl, ?_, ?_⟩
      · simpa using hc
      · simpa using he.symm

/-- bytesToWchars packs exactly two bytes per character, dropping a trailing
lone byte. -/
theorem bytesToWchars_length : ∀ data : List Nat,
    (bytesToWchars data).length = data.length / 2
  | [] => rfl
  | [_] => by simp [bytesToWchars]
  | _ :: _ :: rest => by
    have ih := bytesToWchars_length rest
    simp [bytesToWchars, ih]
    omega

/-! ### Claim theorems -/

/-- C1: util::zallocator::deallocate(p, n) overwrites all n * sizeof(T) bytes
of the backing storage with zero before returning the memory to the
allocator, on its only release path. -/
theorem zallocator_deallocate_zeroizes (sizeofT n : Nat) (storage : List Nat)
    (h : storage.length = n * sizeofT) :
    deallocate sizeofT storage n = List.replicate (n * sizeofT) 0 := by
  unfold deallocate fill_n_zero
  rw [h, Nat.min_self, List.drop_eq_nil_of_le (le_of_eq h), List.append_nil]

/-- Witness for C1 at a concrete allocation of two elements of size four. -/
theorem zallocator_deallocate_zeroizes_witness :
    ([1, 2, 3, 4, 5, 6, 7, 8] : List Nat).length = 2 * 4 ∧
    deallocate 4 [1, 2, 3, 4, 5, 6, 7, 8] 2 = List.replicate (2 * 4) 0 :=
  ⟨by decide, zallocator_deallocate_zeroizes 4 2 [1, 2, 3, 4, 5, 6, 7, 8] (by decide)⟩

/-- C2: under the engine contract (payloads are non-empty on success), every
OperationResult produced by the four biometric wrappers has a non-empty
payload exactly when its status is zero, and the object built by
convertToObject carries null data exactly when the status is nonzero. -/
theorem operationResult_payload_iff_status (acc ch : List Nat) (status : Int)
    (nd : List Nat) (hc : NativeEngineContract status nd) :
    ((createPassportKey acc status nd).data ≠ [] ↔
      (createPassportKey acc status nd).status = 0) ∧
    ((passportSign acc ch status nd).data ≠ [] ↔
      (passportSign acc ch status nd).status = 0) ∧
    ((getPublicKey acc status nd).data ≠ [] ↔
      (getPublicKey acc status nd).status = 0) ∧
    ((getPublicKeyHash acc status nd).data ≠ [] ↔
      (getPublicKeyHash acc status nd).status = 0) ∧
    (∀ r : OperationResult, (convertToObject r).data = none ↔ r.status ≠ 0) := by
  have key : (if status = 0 then nd else []) ≠ [] ↔ status = 0 := by
    by_cases h : status = 0
    · simp [h, hc h]
    · simp [h]
  have cobj : ∀ r : OperationResult, (convertToObject r).data = none ↔ r.status ≠ 0 := by
    intro r
    by_cases h : r.status = 0 <;> simp [convertToObject, h]
  exact ⟨key, key, key, key, cobj⟩

/-- Witness for C2 at a successful native result with a one-byte payload. -/
theorem operationResult_payload_iff_status_witness :
    NativeEngineContract 0 [1] ∧
    ((createPassportKey [] 0 [1]).data ≠ [] ↔ (createPassportKey [] 0 [1]).status = 0) :=
  ⟨fun _ => by decide, (operationResult_payload_iff_status [] [] 0 [1] (fun _ => by decide)).1⟩

/-- C3: decoding inverts encoding on every byte sequence, the encoding is
case-canonical (every output character is an upper-case hex digit), and the
decoder accepts the same hex text in upper or lower case with the same
result. -/
theorem codec_roundtrip_case_canonical :
    (∀ b : List Nat, (∀ x ∈ b, x < 256) →
      string_to_binary (binary_to_string b) = .ok b) ∧
    (∀ b : List Nat, ∀ c ∈ binary_to_string b, isxdigit c = true ∧ toupper c = c) ∧
    (∀ s : List Nat, (∀ c ∈ s, isxdigit c = true) →
      string_to_binary (s.map toupper) = string_to_binary s ∧
      string_to_binary (s.map tolower) = string_to_binary s) := by
  refine ⟨decode_encode, encode_upper_hex, fun s hs => ⟨?_, ?_⟩⟩
  · exact stb_map_congr toupper (fun c hch =>
      ⟨(hexcase c (isxdigit_bound hch) hch).1, (hexcase c (isxdigit_bound hch) hch).2.1⟩) s hs
  · exact stb_map_congr tolower (fun c hch =>
      ⟨(hexcase c (isxdigit_bound hch) hch).2.2.1,
       (hexcase c (isxdigit_bound hch) hch).2.2.2⟩) s hs

/-- Witness for C3 at a concrete three-byte sequence. -/
theorem codec_roundtrip_case_canonical_witness :
    string_to_binary (binary_to_string [0, 255, 171]) = .ok [0, 255, 171] :=
  codec_roundtrip_case_canonical.1 [0, 255, 171] (by decide)

/-- C4 counterexample: the input 0G (bytes 48, 71) contains the non-hex
character G, yet string_to_binary returns bytes instead of failing: a
non-hex character at an odd index is silently treated as a missing low
nibble. -/
theorem decode_nonhex_not_always_error :
    isxdigit 71 = false ∧ (71 : Nat) ∈ ([48, 71] : List Nat) ∧
    string_to_binary [48, 71] = .ok [0] :=
  ⟨rfl, by decide, rfl⟩

/-- C4 (amended): the decoder fails only on the first character of a pair:
it succeeds whenever every even-index character is a hex digit, and any
failure message is errMsg of an even-index non-hex character of the input
(the message names the character but not its position). -/
theorem decode_error_even_position (s : List Nat) :
    ((∀ i (h : i < s.length), i % 2 = 0 → isxdigit (s.get ⟨i, h⟩) = true) →
      ∃ l, string_to_binary s = .ok l) ∧
    (∀ e, string_to_binary s = .error e →
      ∃ i, ∃ h : i < s.length, i % 2 = 0 ∧ isxdigit (s.get ⟨i, h⟩) = false ∧
        e = errMsg (s.get ⟨i, h⟩)) :=
  ⟨stb_evens_ok s, fun e he => stb_error_names s e he⟩

/-- Witness for C4 (amended) at the concrete input 0A. -/
theorem decode_error_even_position_witness :
    ∃ l, string_to_binary [48, 65] = .ok l :=
  (decode_error_even_position [48, 65]).1 (by decide)

/-- C5: on every odd-length text of hex digits the decoder succeeds with
(length + 1) / 2 bytes, the last of which is the nibble value of the final
lone character shifted into the high position (implicit zero low nibble). -/
theorem decode_odd_length_high_nibble (s : List Nat)
    (hhex : ∀ c ∈ s, isxdigit c = true) (hodd : s.length % 2 = 1) :
    ∃ l, string_to_binary s = .ok l ∧ l.length = (s.length + 1) / 2 ∧
      l.getLast? = some (nibbleOf (s.getLast?.getD 0) * 16) := by
  obtain ⟨l, hl, hlen⟩ := stb_allhex_len s hhex
  obtain ⟨l2, hl2, hlast⟩ := stb_odd_last s hhex hodd
  rw [hl] at hl2
  have : l = l2 := Except.ok.inj hl2
  subst this
  exact ⟨l, hl, hlen, hlast⟩

/-- Witness for C5 at the one-character input A. -/
theorem decode_odd_length_high_nibble_witness :
    ∃ l, string_to_binary [65] = .ok l ∧
      l.length = (([65] : List Nat).length + 1) / 2 ∧
      l.getLast? = some (nibbleOf (([65] : List Nat).getLast?.getD 0) * 16) :=
  decode_odd_length_high_nibble [65] (by decide) (by decide)

/-- C6 counterexample: converting the one-byte vector fails (memcpy_s rejects
a count larger than the destination), the result is empty, yet no diagnostic
is emitted: the byte-vector constructor lacks the diagnostic the claim
requires on failure. -/
theorem fromBytes_failure_no_diagnostic :
    memcpy_s_ok ((([1] : List Nat).length / sizeof_wchar) * sizeof_wchar)
      ([1] : List Nat).length = false ∧
    secure_wstring_fromBytes [1] = ([], false) :=
  ⟨rfl, rfl⟩

/-- C6 (amended): failed conversions leave the destination fully empty,
never partially converted, and never throw; the narrow-text constructor
additionally emits a perror diagnostic, while the byte-vector constructor
fails silently with only the empty result. -/
theorem conversion_failure_fully_empty :
    (∀ (str : List Nat) (err outSize : Nat) (buf : List Nat),
      MbstowcsContract err outSize → err ≠ 0 →
      secure_wstring_fromString str err outSize buf = ([], true)) ∧
    (∀ data : List Nat,
      memcpy_s_ok (data.length / sizeof_wchar * sizeof_wchar) data.length = false →
      secure_wstring_fromBytes data = ([], false)) := by
  constructor
  · intro str err outSize buf hcon herr
    have h0 : outSize = 0 := hcon herr
    simp [secure_wstring_fromString, h0, herr]
  · intro data hfail
    simp [secure_wstring_fromBytes, hfail]

/-- Witness for C6 (amended) at a concrete failing narrow-text conversion. -/
theorem conversion_failure_fully_empty_witness :
    MbstowcsContract 42 0 ∧
    secure_wstring_fromString [65] 42 0 [32, 32] = ([], true) :=
  ⟨fun _ => rfl, conversion_failure_fully_empty.1 [65] 42 0 [32, 32] (fun _ => rfl) (by decide)⟩

/-- C7: passwords::encrypt and passwords::decrypt leave the caller buffer
exactly as it was whenever they return false: the buffer is mutated only when
the operation returns true. -/
theorem passwords_unchanged_on_failure (data : List Nat) (utilOut : Option (List Nat)) :
    ((passwords.encrypt data utilOut).1 = false →
      (passwords.encrypt data utilOut).2 = data) ∧
    ((passwords.decrypt data utilOut).1 = false →
      (passwords.decrypt data utilOut).2 = data) := by
  cases utilOut <;> simp [passwords.encrypt, passwords.decrypt]

/-- Witness for C7 at a concrete buffer with a failing util call. -/
theorem passwords_unchanged_on_failure_witness :
    (passwords.encrypt [1, 2] none).1 = false ∧
    (passwords.encrypt [1, 2] none).2 = [1, 2] :=
  ⟨rfl, (passwords_unchanged_on_failure [1, 2] none).1 rfl⟩

/-- C8: when the util layer cannot determine the state (ok is false),
passwords::isEncrypted throws the encryptionException instead of returning
false; a boolean comes back exactly when the query succeeded. -/
theorem isEncrypted_error_on_indeterminate (data : List Nat) (utilRes : Bool) :
    passwords.isEncrypted data utilRes false
      = .error "Could not check if data is encrypted" ∧
    passwords.isEncrypted data utilRes true = .ok utilRes :=
  ⟨rfl, rfl⟩

/-- C9: each async worker delivers exactly one completion through its
deferred promise: every exception raised in the Execute body is caught and
delivered as a rejection, a normal return resolves it with the status/data
object, and the same run can never be both resolved and rejected. -/
theorem worker_single_fire_completion (account challenge : List Nat)
    (native : Except String (Int × List Nat)) :
    (∀ e, createPassportKeyWorkerExecute account native = .error e →
      createPassportKeyWorkerRun account native = .rejected e) ∧
    (∀ st d, createPassportKeyWorkerExecute account native = .ok (st, d) →
      createPassportKeyWorkerRun account native
        = .resolved st (decide (st = 0)) (if st = 0 then d else none)) ∧
    (∀ e, passportSignWorkerExecute account challenge native = .error e →
      passportSignWorkerRun account challenge native = .rejected e) ∧
    (∀ st d, passportSignWorkerExecute account challenge native = .ok (st, d) →
      passportSignWorkerRun account challenge native
        = .resolved st (decide (st = 0)) (if st = 0 then d else none)) ∧
    (∀ e st ok d, ¬ (createPassportKeyWorkerRun account native = .rejected e ∧
      createPassportKeyWorkerRun account native = .resolved st ok d)) ∧
    (∀ e st ok d, ¬ (passportSignWorkerRun account challenge native = .rejected e ∧
      passportSignWorkerRun account challenge native = .resolved st ok d)) := by
  refine ⟨?_, ?_, ?_, ?_, ?_, ?_⟩
  · intro e he
    simp [createPassportKeyWorkerRun, he, workerOnDone]
  · intro st d hd
    simp [createPassportKeyWorkerRun, hd, workerOnDone]
  · intro e he
    simp [passportSignWorkerRun, he, workerOnDone]
  · intro st d hd
    simp [passportSignWorkerRun, hd, workerOnDone]
  · rintro e st ok d ⟨h1, h2⟩
    rw [h1] at h2
    exact Completion.noConfusion h2
  · rintro e st ok d ⟨h1, h2⟩
    rw [h1] at h2
    exact Completion.noConfusion h2

/-- Witness for C9 at a native layer that raises an exception. -/
theorem worker_single_fire_completion_witness :
    createPassportKeyWorkerRun [] (.error "boom") = .rejected "boom" :=
  (worker_single_fire_completion [] [] (.error "boom")).1 "boom" rfl

/-- C10 counterexample: for the three-byte vector 1, 2, 3 the claim predicts
3 / 2 = 1 wide character with the trailing byte discarded, but the memcpy_s
copy is rejected and the constructor produces the empty string instead. -/
theorem fromBytes_remainder_not_truncated :
    (([1, 2, 3] : List Nat).length / sizeof_wchar = 1) ∧
    ((secure_wstring_fromBytes [1, 2, 3]).1).length = 0 :=
  ⟨rfl, rfl⟩

/-- C10 (amended): when data.size() is a multiple of sizeof(wchar_t) the
constructor yields exactly data.size() / sizeof(wchar_t) characters; for any
other size the memcpy_s copy fails and the result is fully empty rather than
truncated.  Either way nothing is signaled to the caller, and the bytes to
wide string to bytes round trip is lossy for non-multiple sizes. -/
theorem fromBytes_length_amended (data : List Nat) :
    (data.length % sizeof_wchar = 0 →
      ((secure_wstring_fromBytes data).1).length = data.length / sizeof_wchar) ∧
    (data.length % sizeof_wchar ≠ 0 →
      secure_wstring_fromBytes data = ([], false) ∧
      secure_wstring_getBytes (secure_wstring_fromBytes data).1 ≠ data) := by
  constructor
  · intro he
    have hok : memcpy_s_ok (data.length / 2 * 2) data.length = true := by
      simp only [sizeof_wchar] at he
      simp only [memcpy_s_ok, decide_eq_true_eq]
      omega
    simp [secure_wstring_fromBytes, sizeof_wchar, hok, bytesToWchars_length]
  · intro hne
    have hok : memcpy_s_ok (data.length / 2 * 2) data.length = false := by
      simp only [sizeof_wchar] at hne
      simp only [memcpy_s_ok, decide_eq_false_iff_not]
      omega
    have hempty : secure_wstring_fromBytes data = ([], false) := by
      simp [secure_wstring_fromBytes, sizeof_wchar, hok]
    refine ⟨hempty, ?_⟩
    rw [hempty]
    have hdne : data ≠ [] := by
      intro h
      rw [h] at hne
      simp [sizeof_wchar] at hne
    simp only [secure_wstring_getBytes]
    intro h
    exact hdne (by simpa using h.symm)

/-- Witness for C10 (amended) at a concrete four-byte vector. -/
theorem fromBytes_length_amended_witness :
    (([1, 2, 3, 4] : List Nat).length % sizeof_wchar = 0) ∧
    ((secure_wstring_fromBytes [1, 2, 3, 4]).1).length
      = ([1, 2, 3, 4] : List Nat).length / sizeof_wchar :=
  ⟨by decide, (fromBytes_length_amended [1, 2, 3, 4]).1 (by decide)⟩

end NodeMsPassport
